import Mathlib

/-!
Shallow embedding of the report management daemon
(`src/report_management_system`): the constants of `report_system.h`,
the string-scanning primitives (`strncmp`-prefix test, `strchr`,
`strstr`), and the core operations the verification targets:
`transfer_reports`, `check_missing_reports`,
`extract_department_from_filename`, `monitor_directory_changes`,
`backup_dashboard`, `receive_ipc_message`, and one iteration of
`daemon_main_loop`.

Filesystem effects are made explicit: directory listings become lists of
entries, the success of `opendir` / `mkdir` / `move_file` / `copy_file`
becomes explicit boolean inputs, and `chmod` on a managed directory is
modelled as the permission update it performs (the daemon ignores the
return values of `lock_directories` / `unlock_directories`).
-/

set_option autoImplicit false

/-- Return code `SUCCESS` (0) from `report_system.h`. -/
def SUCCESS : Int := 0

/-- Return code `FAILURE` (-1) from `report_system.h`. -/
def FAILURE : Int := -1

/-- `REPORT_EXTENSION ".xml"` from `report_system.h`. -/
def REPORT_EXT : List Char := ".xml".toList

/-- `REPORT_PREFIX "report_"` from `report_system.h`. -/
def REPORT_PFX : List Char := "report_".toList

/-- `TRANSFER_HOUR 1` (1:00 AM) from `report_system.h`. -/
def TRANSFER_HOUR : Nat := 1

/-- `TRANSFER_MINUTE 0` from `report_system.h`. -/
def TRANSFER_MINUTE : Nat := 0

/-- `UPLOAD_PERMISSIONS 0777` from `report_system.h`. -/
def UPLOAD_PERMISSIONS : Nat := 0o777

/-- `DASHBOARD_PERMISSIONS 0755` from `report_system.h`. -/
def DASHBOARD_PERMISSIONS : Nat := 0o755

/-- `LOCKED_PERMISSIONS 0000` from `report_system.h`. -/
def LOCKED_PERMISSIONS : Nat := 0

/-- Boolean test that `pat` is an initial segment of `l`
    (C `strncmp(l, pat, strlen(pat)) == 0`). -/
def isPfxB {α : Type} [DecidableEq α] : List α → List α → Bool
  | [], _ => true
  | _ :: _, [] => false
  | a :: pat, b :: l => if a = b then isPfxB pat l else false

/-- Index of the first occurrence of `pat` as a contiguous block of `l`
    (C `strstr`, returning an offset instead of a pointer; `none` models a
    NULL result). `strchr l c` is the special case `subIdx l [c]`. -/
def subIdx {α : Type} [DecidableEq α] : List α → List α → Option Nat
  | [], pat => if isPfxB pat ([] : List α) then some 0 else none
  | a :: t, pat => if isPfxB pat (a :: t) then some 0 else (subIdx t pat).map (· + 1)

/-- C `strstr(l, pat) != NULL`. -/
def hasSub {α : Type} [DecidableEq α] (l pat : List α) : Bool :=
  (subIdx l pat).isSome

/-- `extract_department_from_filename` from `file_operations.c`: requires the
    `report_` name to start with `REPORT_PREFIX`, then takes the substring up
    to the first following underscore, else up to the first occurrence of
    `REPORT_EXTENSION`, truncated to at most `dept_size - 1` characters;
    `none` models returning NULL. -/
def extract_department_from_filename (filename : List Char) (dept_size : Nat) :
    Option (List Char) :=
  if isPfxB REPORT_PFX filename then
    let start := filename.drop REPORT_PFX.length
    let idx : Option Nat :=
      match subIdx start ['_'] with
      | some i => some i
      | none => subIdx start REPORT_EXT
    match idx with
    | some len => some (start.take (if dept_size ≤ len then dept_size - 1 else len))
    | none => none
  else none

/-- One `readdir` result: the entry name and whether `d_type == DT_DIR`. -/
structure DirEntry where
  name : List Char
  isDir : Bool
deriving DecidableEq

/-- The selection test shared by `transfer_reports` and
    `check_missing_reports`: the entry is kept unless it is a directory or
    `strstr(d_name, REPORT_EXTENSION)` is NULL. -/
def isReportEntry (e : DirEntry) : Bool :=
  !e.isDir && hasSub e.name REPORT_EXT

/-- The `readdir` loop of `transfer_reports`: `moveOk` tells whether
    `move_file` succeeds for a given name. Returns the accumulated `result`
    and the names moved into the dashboard directory, in iteration order. -/
def transferLoop (moveOk : List Char → Bool) : List DirEntry → Int × List (List Char)
  | [] => (SUCCESS, [])
  | e :: rest =>
    if isReportEntry e then
      let r := transferLoop moveOk rest
      if moveOk e.name then (r.1, e.name :: r.2) else (FAILURE, r.2)
    else transferLoop moveOk rest

/-- `transfer_reports` from `file_operations.c`: `openOk` models whether
    `opendir(UPLOAD_DIR)` succeeds and `entries` is the `readdir` sequence. -/
def transfer_reports (openOk : Bool) (entries : List DirEntry)
    (moveOk : List Char → Bool) : Int × List (List Char) :=
  if openOk then transferLoop moveOk entries else (FAILURE, [])

/-- The fixed required department set of `check_missing_reports`. -/
def DEPARTMENTS : List (List Char) :=
  ["Warehouse".toList, "Manufacturing".toList, "Sales".toList, "Distribution".toList]

/-- C `strcasecmp(a, b) == 0`. -/
def strcaseEq (a b : List Char) : Bool :=
  a.map Char.toLower == b.map Char.toLower

/-- The inner marking loop of `check_missing_reports`: set the `found` flag
    of the first case-insensitive match, then break. -/
def markDept (dept : List Char) : List (List Char × Bool) → List (List Char × Bool)
  | [] => []
  | (d, f) :: rest =>
    if strcaseEq dept d then (d, true) :: rest else (d, f) :: markDept dept rest

/-- The `readdir` loop of `check_missing_reports` over the `found` flags;
    the department buffer size is `MAX_USER_LENGTH = 256`. -/
def missingLoop : List DirEntry → List (List Char × Bool) → List (List Char × Bool)
  | [], found => found
  | e :: rest, found =>
    if isReportEntry e then
      match extract_department_from_filename e.name 256 with
      | some dept => missingLoop rest (markDept dept found)
      | none => missingLoop rest found
    else missingLoop rest found

/-- `check_missing_reports` from `file_operations.c`: returns the number of
    required departments with no report in the dashboard directory; an
    `opendir` failure counts all 4 departments as missing. -/
def check_missing_reports (openOk : Bool) (entries : List DirEntry) : Nat :=
  if openOk then
    ((missingLoop entries (DEPARTMENTS.map fun d => (d, false))).filter
      (fun p => !p.2)).length
  else 4

/-- The copy loop of `backup_dashboard`: returns `(file_count, success_count)`;
    `copyOk` tells whether `copy_file` succeeds for a given name. -/
def backupLoop (copyOk : List Char → Bool) : List DirEntry → Nat × Nat
  | [] => (0, 0)
  | e :: rest =>
    if e.isDir then backupLoop copyOk rest
    else
      let r := backupLoop copyOk rest
      (r.1 + 1, if copyOk e.name then r.2 + 1 else r.2)

/-- The observable outcome of `backup_dashboard`: its return code and the
    `file_count` / `success_count` counters it logs. -/
structure BackupResult where
  result : Int
  file_count : Nat
  success_count : Nat
deriving DecidableEq

/-- `backup_dashboard` from `backup.c`: `mkdirOk` models whether `mkdir` of
    the timestamped backup directory succeeds, `openOk` whether
    `opendir(DASHBOARD_DIR)` succeeds, `entries` the `readdir` sequence. -/
def backup_dashboard (mkdirOk openOk : Bool) (entries : List DirEntry)
    (copyOk : List Char → Bool) : BackupResult :=
  match mkdirOk, openOk with
  | false, _ => ⟨FAILURE, 0, 0⟩
  | true, false => ⟨FAILURE, 0, 0⟩
  | true, true =>
    if (backupLoop copyOk entries).2 = (backupLoop copyOk entries).1 then
      ⟨SUCCESS, (backupLoop copyOk entries).1, (backupLoop copyOk entries).2⟩
    else
      ⟨if 0 < (backupLoop copyOk entries).2 then SUCCESS else FAILURE,
        (backupLoop copyOk entries).1, (backupLoop copyOk entries).2⟩

/-- Outcome of the single non-blocking `read` in `receive_ipc_message`:
    `data n` is a read of `n ≥ 0` bytes, `errAgain` is `-1` with
    `EAGAIN`/`EWOULDBLOCK`, `errOther` is `-1` with any other `errno`. -/
inductive ReadOutcome
  | data (n : Nat)
  | errAgain
  | errOther
deriving DecidableEq

/-- Which `log_error` call `receive_ipc_message` makes, if any. -/
inductive RecvLog
  | noLog
  | notOpenLog
  | readFailLog
  | partialLog
deriving DecidableEq

/-- `receive_ipc_message` from `ipc.c`: returns its status code paired with
    the `log_error` call it makes; `sz` is `sizeof(IPCMessage)`. -/
def receive_ipc_message (fifoOpen : Bool) (r : ReadOutcome) (sz : Nat) :
    Int × RecvLog :=
  if !fifoOpen then (FAILURE, RecvLog.notOpenLog)
  else
    match r with
    | .errAgain => (FAILURE, RecvLog.noLog)
    | .errOther => (FAILURE, RecvLog.readFailLog)
    | .data n => if n = sz then (SUCCESS, RecvLog.noLog) else (FAILURE, RecvLog.partialLog)

/-- The fields of a `ReportFile` that `monitor_directory_changes` reads. -/
structure ReportFile where
  filename : List Char
  timestamp : Int
  owner : List Char
deriving DecidableEq

/-- The action of a change-log entry. -/
inductive ChangeAction
  | create
  | modify
  | delete
deriving DecidableEq

/-- One `log_file_change` call: `(username, filename, action)`. -/
structure ChangeEvent where
  owner : List Char
  filename : List Char
  action : ChangeAction
deriving DecidableEq

/-- The inner matching loop of `monitor_directory_changes`: the first entry
    of `l` with the given filename (`strcmp == 0`, then `break`). -/
def findByName (n : List Char) : List ReportFile → Option ReportFile
  | [] => none
  | p :: rest => if p.filename = n then some p else findByName n rest

/-- The first loop of `monitor_directory_changes`: for each current file, a
    `create` event if it has no previous entry, a `modify` event if the
    previous entry's timestamp is strictly older, nothing otherwise. -/
def currentLoop (prev : List ReportFile) : List ReportFile → List ChangeEvent
  | [] => []
  | c :: rest =>
    match findByName c.filename prev with
    | none => ⟨c.owner, c.filename, ChangeAction.create⟩ :: currentLoop prev rest
    | some p =>
      if p.timestamp < c.timestamp then
        ⟨c.owner, c.filename, ChangeAction.modify⟩ :: currentLoop prev rest
      else currentLoop prev rest

/-- The second loop of `monitor_directory_changes`: a `delete` event for each
    previous file with no current entry. -/
def deletedLoop (current : List ReportFile) : List ReportFile → List ChangeEvent
  | [] => []
  | p :: rest =>
    match findByName p.filename current with
    | some _ => deletedLoop current rest
    | none => ⟨p.owner, p.filename, ChangeAction.delete⟩ :: deletedLoop current rest

/-- Result of `scan_directory`: the produced inventory, or `fail` for an
    `opendir` / allocation failure (the function returns `FAILURE`). -/
inductive ScanResult
  | ok (files : List ReportFile)
  | fail

/-- `monitor_directory_changes` from `file_operations.c`, as a function of
    the stored previous inventory (`none` models `previous_files == NULL`)
    and the scan result. Returns the status code, the new stored previous
    inventory, and the emitted change events in emission order. -/
def monitor_directory_changes (previous : Option (List ReportFile))
    (scan : ScanResult) : Int × Option (List ReportFile) × List ChangeEvent :=
  match scan with
  | .fail => (FAILURE, previous, [])
  | .ok current =>
    match previous with
    | none => (SUCCESS, some current, [])
    | some prev =>
      (SUCCESS, some current, currentLoop prev current ++ deletedLoop current prev)

/-- The permission modes of the two managed directories. -/
structure DirPerms where
  upload : Nat
  dashboard : Nat
deriving DecidableEq

/-- `lock_directories` from `backup.c`: `chmod` both managed directories to
    `LOCKED_PERMISSIONS` (the permission effect; the daemon ignores the
    return code). -/
def lock_directories (_ : DirPerms) : DirPerms :=
  ⟨LOCKED_PERMISSIONS, LOCKED_PERMISSIONS⟩

/-- `unlock_directories` from `backup.c`: restore `UPLOAD_PERMISSIONS` on the
    upload directory and `DASHBOARD_PERMISSIONS` on the dashboard directory. -/
def unlock_directories (_ : DirPerms) : DirPerms :=
  ⟨UPLOAD_PERMISSIONS, DASHBOARD_PERMISSIONS⟩

/-- The loop-carried state of `daemon_main_loop`: the managed directory
    permissions and the `force_transfer` / `force_backup` flags plus
    `last_check`. -/
structure LoopState where
  perms : DirPerms
  force_transfer : Bool
  force_backup : Bool
  last_check : Int
deriving DecidableEq

/-- The observable operations of one `daemon_main_loop` iteration, in
    program order; `transferEv` / `backupEv` carry whether the call
    returned `SUCCESS` (used only for logging in the C code). -/
inductive PipelineEvent
  | lockEv
  | transferEv (ok : Bool)
  | missingEv
  | backupEv (ok : Bool)
  | unlockEv
  | monitorEv
deriving DecidableEq

/-- One iteration of the `while (!daemon_exit)` body of `daemon_main_loop`:
    `hour`/`minute` are the wall-clock fields read once at the top, `now` the
    epoch time, and `tOk`/`bOk`/`bOk2` whether `transfer_reports`, the
    scheduled `backup_dashboard`, and the manual `backup_dashboard` return
    `SUCCESS`. Returns the next state and the emitted event trace. -/
def daemon_iteration (st : LoopState) (hour minute : Nat) (now : Int)
    (tOk bOk bOk2 : Bool) : LoopState × List PipelineEvent :=
  let stp :=
    if (hour = TRANSFER_HOUR ∧ minute = TRANSFER_MINUTE) ∨ st.force_transfer = true then
      ({ st with
          perms := unlock_directories (lock_directories st.perms),
          force_transfer := false },
        [PipelineEvent.lockEv, PipelineEvent.transferEv tOk, PipelineEvent.missingEv,
          PipelineEvent.backupEv bOk, PipelineEvent.unlockEv])
    else (st, [])
  let st1 := stp.1
  let tr1 := stp.2
  if 5 ≤ now - st1.last_check ∨ st1.force_backup = true then
    if st1.force_backup = true then
      ({ st1 with
          perms := unlock_directories (lock_directories st1.perms),
          last_check := now,
          force_backup := false },
        tr1 ++ [PipelineEvent.monitorEv, PipelineEvent.lockEv,
          PipelineEvent.backupEv bOk2, PipelineEvent.unlockEv])
    else
      ({ st1 with last_check := now }, tr1 ++ [PipelineEvent.monitorEv])
  else (st1, tr1)

/-- An event is one of the guarded operations of the locked pipeline. -/
def isGuardedEv : PipelineEvent → Bool
  | .transferEv _ => true
  | .backupEv _ => true
  | _ => false

/-- Every guarded operation in the trace is followed, strictly later, by an
    `unlock_directories` call. -/
def unlockAfterGuarded (tr : List PipelineEvent) : Prop :=
  ∀ i : Fin tr.length, isGuardedEv (tr.get i) = true →
    ∃ j : Fin tr.length, i.val < j.val ∧ tr.get j = PipelineEvent.unlockEv

/-- The number of emitted events with the given filename and action. -/
def countEvents (evs : List ChangeEvent) (n : List Char) (a : ChangeAction) : Nat :=
  (evs.filter fun e => e.filename == n && e.action == a).length

/-- The per-current-file event decision of the first loop of
    `monitor_directory_changes` (used to state its characterization). -/
def cmEvent (prev : List ReportFile) (c : ReportFile) : Option ChangeEvent :=
  match findByName c.filename prev with
  | none => some ⟨c.owner, c.filename, ChangeAction.create⟩
  | some p =>
    if p.timestamp < c.timestamp then some ⟨c.owner, c.filename, ChangeAction.modify⟩
    else none

/-- The per-previous-file event decision of the second loop of
    `monitor_directory_changes`. -/
def delEvent (current : List ReportFile) (p : ReportFile) : Option ChangeEvent :=
  match findByName p.filename current with
  | some _ => none
  | none => some ⟨p.owner, p.filename, ChangeAction.delete⟩

/-- The emitted event list of a non-priming `monitor_directory_changes` run:
    the first loop's events followed by the second loop's events. -/
def monitorEvents (prev cur : List ReportFile) : List ChangeEvent :=
  currentLoop prev cur ++ deletedLoop cur prev

/-! ## Theorems -/

/-- C6: on the first ever run (no previous inventory stored),
    `monitor_directory_changes` stores the current scan as the previous
    inventory and returns `SUCCESS` with zero change events emitted. -/
theorem monitor_priming_run (cur : List ReportFile) :
    monitor_directory_changes none (ScanResult.ok cur) = (SUCCESS, some cur, []) :=
  rfl

/-- C7: if the directory scan fails, `monitor_directory_changes` returns
    `FAILURE` and leaves the stored previous inventory unchanged; if the scan
    succeeds, the stored previous inventory afterwards equals the inventory
    produced by that scan. -/
theorem monitor_state_update (previous : Option (List ReportFile))
    (cur : List ReportFile) :
    monitor_directory_changes previous ScanResult.fail = (FAILURE, previous, [])
    ∧ (monitor_directory_changes previous (ScanResult.ok cur)).2.1 = some cur := by
  cases previous <;> simp [monitor_directory_changes]

/-- C3 counterexample: `receive_ipc_message` returns the same status code
    `FAILURE` for "no data available" (`EAGAIN`), for a genuine read error,
    and for a partial record — the no-message case is not distinguishable
    from an error by the returned result, and a partial record does not get
    a distinct result (2060 bytes stands for `sizeof(IPCMessage)`). -/
theorem receive_ipc_no_distinct_results :
    (receive_ipc_message true ReadOutcome.errAgain 2060).1
        = (receive_ipc_message true ReadOutcome.errOther 2060).1
    ∧ (receive_ipc_message true (ReadOutcome.data 100) 2060).1
        = (receive_ipc_message true ReadOutcome.errOther 2060).1
    ∧ (receive_ipc_message true ReadOutcome.errAgain 2060).1 = FAILURE := by
  decide

/-- C3 amended: `receive_ipc_message` returns `SUCCESS` exactly when the FIFO
    is open and one full fixed-size record is read; no data, read errors and
    partial records all return the same `FAILURE` code, and only the
    `log_error` side effect differs between them (nothing is logged for
    no-data, a read-failure message for other errors, and a distinct
    partial-read message for short reads). -/
theorem receive_ipc_message_amended (fifoOpen : Bool) (r : ReadOutcome) (sz : Nat) :
    ((receive_ipc_message fifoOpen r sz).1 = SUCCESS
      ↔ fifoOpen = true ∧ r = ReadOutcome.data sz)
    ∧ ((receive_ipc_message fifoOpen r sz).1 = SUCCESS
        ∨ (receive_ipc_message fifoOpen r sz).1 = FAILURE)
    ∧ (receive_ipc_message true ReadOutcome.errAgain sz).2 = RecvLog.noLog
    ∧ (receive_ipc_message true ReadOutcome.errOther sz).2 = RecvLog.readFailLog
    ∧ (∀ n, n ≠ sz →
        receive_ipc_message true (ReadOutcome.data n) sz = (FAILURE, RecvLog.partialLog)) := by
  have hne : FAILURE ≠ SUCCESS := by decide
  have hdata : ∀ n, n = sz →
      receive_ipc_message true (ReadOutcome.data n) sz = (SUCCESS, RecvLog.noLog) := by
    intro n hn
    simp [receive_ipc_message, hn]
  have hdata' : ∀ n, n ≠ sz →
      receive_ipc_message true (ReadOutcome.data n) sz = (FAILURE, RecvLog.partialLog) := by
    intro n hn
    simp [receive_ipc_message, hn]
  refine ⟨?_, ?_, rfl, rfl, fun n hn => hdata' n hn⟩
  · cases fifoOpen with
    | false =>
      exact ⟨fun h => absurd h hne, by rintro ⟨h, -⟩; cases h⟩
    | true =>
      cases r with
      | errAgain => exact ⟨fun h => absurd h hne, by rintro ⟨-, h⟩; cases h⟩
      | errOther => exact ⟨fun h => absurd h hne, by rintro ⟨-, h⟩; cases h⟩
      | data n =>
        by_cases hn : n = sz
        · rw [hdata n hn]
          exact ⟨fun _ => ⟨rfl, by rw [hn]⟩, fun _ => rfl⟩
        · rw [hdata' n hn]
          exact ⟨fun h => absurd h hne, by rintro ⟨-, h⟩; cases h; exact absurd rfl hn⟩
  · cases fifoOpen with
    | false => exact Or.inr rfl
    | true =>
      cases r with
      | errAgain => exact Or.inr rfl
      | errOther => exact Or.inr rfl
      | data n =>
        by_cases hn : n = sz
        · rw [hdata n hn]; exact Or.inl rfl
        · rw [hdata' n hn]; exact Or.inr rfl

/-- Witness for the amended C3 theorem at a concrete partial read. -/
theorem receive_ipc_message_amended_witness :
    (100 : Nat) ≠ 2060
    ∧ receive_ipc_message true (ReadOutcome.data 100) 2060 = (FAILURE, RecvLog.partialLog) :=
  ⟨by decide, (receive_ipc_message_amended true (ReadOutcome.data 100) 2060).2.2.2.2 100 (by decide)⟩

/-- The copy loop counts exactly the non-directory entries and, among them,
    exactly the successful copies. -/
theorem backupLoop_eq (copyOk : List Char → Bool) (entries : List DirEntry) :
    backupLoop copyOk entries
      = ((entries.filter fun e => !e.isDir).length,
          ((entries.filter fun e => !e.isDir).filter fun e => copyOk e.name).length) := by
  induction entries with
  | nil => rfl
  | cons e rest ih =>
    cases hd : e.isDir <;>
      simp [backupLoop, hd, List.filter_cons, ih] <;>
      cases hc : copyOk e.name <;> simp [hc]

/-- C2: `backup_dashboard` returns `SUCCESS` exactly when the backup
    directory was created, the dashboard directory opened, and either every
    file was copied or at least one file was copied (the partial case);
    it returns `FAILURE` only if zero files were copied or the backup
    directory itself could not be created; its counters are the number of
    non-directory entries and the number of those successfully copied. -/
theorem backup_dashboard_claim (mkdirOk openOk : Bool) (entries : List DirEntry)
    (copyOk : List Char → Bool) :
    ((backup_dashboard mkdirOk openOk entries copyOk).result = SUCCESS
      ↔ mkdirOk = true ∧ openOk = true
        ∧ ((backup_dashboard mkdirOk openOk entries copyOk).success_count
              = (backup_dashboard mkdirOk openOk entries copyOk).file_count
            ∨ 0 < (backup_dashboard mkdirOk openOk entries copyOk).success_count))
    ∧ ((backup_dashboard mkdirOk openOk entries copyOk).result = FAILURE →
        (backup_dashboard mkdirOk openOk entries copyOk).success_count = 0
          ∨ mkdirOk = false)
    ∧ (mkdirOk = true → openOk = true →
        (backup_dashboard mkdirOk openOk entries copyOk).file_count
            = (entries.filter fun e => !e.isDir).length
        ∧ (backup_dashboard mkdirOk openOk entries copyOk).success_count
            = ((entries.filter fun e => !e.isDir).filter fun e => copyOk e.name).length) := by
  have hne : FAILURE ≠ SUCCESS := by decide
  cases mkdirOk with
  | false =>
    refine ⟨⟨fun h => absurd h hne, by rintro ⟨h, -⟩; cases h⟩, fun _ => Or.inr rfl,
      fun h => by cases h⟩
  | true =>
    cases openOk with
    | false =>
      refine ⟨⟨fun h => absurd h hne, by rintro ⟨-, h, -⟩; cases h⟩, fun _ => Or.inl rfl,
        fun _ h => by cases h⟩
    | true =>
      have hb : backup_dashboard true true entries copyOk =
          if ((entries.filter fun e => !e.isDir).filter fun e => copyOk e.name).length
              = (entries.filter fun e => !e.isDir).length then
            ⟨SUCCESS, (entries.filter fun e => !e.isDir).length,
              ((entries.filter fun e => !e.isDir).filter fun e => copyOk e.name).length⟩
          else
            ⟨if 0 < ((entries.filter fun e => !e.isDir).filter
                  fun e => copyOk e.name).length then SUCCESS else FAILURE,
              (entries.filter fun e => !e.isDir).length,
              ((entries.filter fun e => !e.isDir).filter fun e => copyOk e.name).length⟩ := by
        show (if (backupLoop copyOk entries).2 = (backupLoop copyOk entries).1 then
            (⟨SUCCESS, (backupLoop copyOk entries).1,
              (backupLoop copyOk entries).2⟩ : BackupResult)
          else ⟨if 0 < (backupLoop copyOk entries).2 then SUCCESS else FAILURE,
            (backupLoop copyOk entries).1, (backupLoop copyOk entries).2⟩) = _
        rw [backupLoop_eq]
      rw [hb]
      generalize ((entries.filter fun e => !e.isDir).filter fun e => copyOk e.name).length = s
      generalize (entries.filter fun e => !e.isDir).length = f
      by_cases h1 : s = f
      · rw [if_pos h1]
        exact ⟨iff_of_true rfl ⟨rfl, rfl, Or.inl h1⟩, fun h => absurd h.symm hne,
          fun _ _ => ⟨rfl, rfl⟩⟩
      · rw [if_neg h1]
        by_cases h2 : 0 < s
        · rw [if_pos h2]
          exact ⟨iff_of_true rfl ⟨rfl, rfl, Or.inr h2⟩, fun h => absurd h.symm hne,
            fun _ _ => ⟨rfl, rfl⟩⟩
        · rw [if_neg h2]
          refine ⟨iff_of_false (fun h => hne h) ?_,
            fun _ => Or.inl (Nat.eq_zero_of_not_pos h2), fun _ _ => ⟨rfl, rfl⟩⟩
          rintro ⟨-, -, h | h⟩
          · exact h1 h
          · exact h2 h

/-- The transfer loop's result is `SUCCESS` exactly when `move_file`
    succeeded for every selected entry, and the moved names are exactly the
    selected entries whose move succeeded, in iteration order. -/
theorem transferLoop_eq (moveOk : List Char → Bool) (entries : List DirEntry) :
    ((transferLoop moveOk entries).1 = SUCCESS ↔
      ∀ e ∈ entries, isReportEntry e = true → moveOk e.name = true)
    ∧ (transferLoop moveOk entries).2 =
        (entries.filter fun e => isReportEntry e && moveOk e.name).map (fun e => e.name) := by
  have hne : FAILURE ≠ SUCCESS := by decide
  induction entries with
  | nil => exact ⟨iff_of_true rfl (by intro e h; cases h), rfl⟩
  | cons e rest ih =>
    cases hr : isReportEntry e with
    | false =>
      refine ⟨?_, ?_⟩
      · rw [show transferLoop moveOk (e :: rest) = transferLoop moveOk rest from by
          simp [transferLoop, hr]]
        rw [ih.1]
        constructor
        · intro h x hx hrx
          rcases List.mem_cons.mp hx with h1 | h1
          · subst h1; rw [hr] at hrx; cases hrx
          · exact h x h1 hrx
        · intro h x hx hrx
          exact h x (List.mem_cons_of_mem e hx) hrx
      · rw [show transferLoop moveOk (e :: rest) = transferLoop moveOk rest from by
          simp [transferLoop, hr]]
        rw [ih.2]
        simp [List.filter_cons, hr]
    | true =>
      cases hm : moveOk e.name with
      | false =>
        have hstep : transferLoop moveOk (e :: rest)
            = (FAILURE, (transferLoop moveOk rest).2) := by
          simp [transferLoop, hr, hm]
        refine ⟨?_, ?_⟩
        · rw [hstep]
          refine iff_of_false (fun hs => hne hs) ?_
          intro h
          have := h e (List.mem_cons_self e rest) hr
          rw [hm] at this; cases this
        · rw [hstep, ih.2]
          simp [List.filter_cons, hr, hm]
      | true =>
        have hstep : transferLoop moveOk (e :: rest)
            = ((transferLoop moveOk rest).1, e.name :: (transferLoop moveOk rest).2) := by
          simp [transferLoop, hr, hm]
        refine ⟨?_, ?_⟩
        · rw [hstep]
          rw [ih.1]
          constructor
          · intro h x hx hrx
            rcases List.mem_cons.mp hx with h1 | h1
            · subst h1; exact hm
            · exact h x h1 hrx
          · intro h x hx hrx
            exact h x (List.mem_cons_of_mem e hx) hrx
        · rw [hstep, ih.2]
          simp [List.filter_cons, hr, hm]

/-- C4: `transfer_reports` returns `SUCCESS` exactly when every upload-directory
    entry matching the report extension was moved; if any matched file fails to
    move, the result is `FAILURE`; either way the per-file transfers continue and
    the set of files placed in the dashboard directory is exactly the matched
    entries whose individual move succeeded, in iteration order (already-moved
    files are not rolled back on a later failure). -/
theorem transfer_reports_claim (entries : List DirEntry) (moveOk : List Char → Bool) :
    ((transfer_reports true entries moveOk).1 = SUCCESS ↔
      ∀ e ∈ entries, isReportEntry e = true → moveOk e.name = true)
    ∧ ((¬ ∀ e ∈ entries, isReportEntry e = true → moveOk e.name = true) →
        (transfer_reports true entries moveOk).1 = FAILURE)
    ∧ (transfer_reports true entries moveOk).2 =
        (entries.filter fun e => isReportEntry e && moveOk e.name).map (fun e => e.name) := by
  have h := transferLoop_eq moveOk entries
  have htr : transfer_reports true entries moveOk = transferLoop moveOk entries := rfl
  refine ⟨htr ▸ h.1, ?_, htr ▸ h.2⟩
  intro hnot
  have h1 : (transferLoop moveOk entries).1 ≠ SUCCESS := fun hs => hnot (h.1.mp hs)
  have hall : ∀ l : List DirEntry, (transferLoop moveOk l).1 = SUCCESS ∨
      (transferLoop moveOk l).1 = FAILURE := by
    intro l
    induction l with
    | nil => exact Or.inl rfl
    | cons e rest ih =>
      cases hr : isReportEntry e with
      | false => rw [show transferLoop moveOk (e :: rest) = transferLoop moveOk rest from by
          simp [transferLoop, hr]]; exact ih
      | true =>
        cases hm : moveOk e.name with
        | false => rw [show (transferLoop moveOk (e :: rest)).1 = FAILURE from by
            simp [transferLoop, hr, hm]]; exact Or.inr rfl
        | true => rw [show (transferLoop moveOk (e :: rest)).1
              = (transferLoop moveOk rest).1 from by
            simp [transferLoop, hr, hm]]; exact ih
  rcases hall entries with hs | hf
  · exact absurd hs h1
  · exact htr ▸ hf

/-- Witness for C4: with one matched file whose move fails and one whose move
    succeeds, the result is `FAILURE` and the successful file is still moved. -/
theorem transfer_reports_claim_witness :
    (¬ ∀ e ∈ [DirEntry.mk "report_a.xml".toList false, DirEntry.mk "report_b.xml".toList false],
        isReportEntry e = true → (fun n => n == "report_b.xml".toList) e.name = true)
    ∧ (transfer_reports true
        [DirEntry.mk "report_a.xml".toList false, DirEntry.mk "report_b.xml".toList false]
        (fun n => n == "report_b.xml".toList)).1 = FAILURE
    ∧ (transfer_reports true
        [DirEntry.mk "report_a.xml".toList false, DirEntry.mk "report_b.xml".toList false]
        (fun n => n == "report_b.xml".toList)).2 = ["report_b.xml".toList] :=
  ⟨by decide,
    (transfer_reports_claim _ _).2.1 (by decide),
    by rw [(transfer_reports_claim
        [DirEntry.mk "report_a.xml".toList false, DirEntry.mk "report_b.xml".toList false]
        (fun n => n == "report_b.xml".toList)).2.2]; decide⟩

/-- C10: the report-file test of `transfer_reports` and
    `check_missing_reports` is a substring match on `".xml"`, not a terminal
    extension match: `report_Sales.xml.bak` is classified as a report file,
    is selected for transfer, and counts toward the Sales department's
    presence (3 missing instead of all 4). -/
theorem xml_substring_selection :
    isReportEntry (DirEntry.mk "report_Sales.xml.bak".toList false) = true
    ∧ (transfer_reports true [DirEntry.mk "report_Sales.xml.bak".toList false]
        (fun _ => true)).2 = ["report_Sales.xml.bak".toList]
    ∧ check_missing_reports true [DirEntry.mk "report_Sales.xml.bak".toList false] = 3
    ∧ check_missing_reports true [] = 4 := by
  refine ⟨by decide, by decide, by decide, by decide⟩

/-- A list is a prefix of itself followed by anything. -/
theorem isPfxB_self_append {α : Type} [DecidableEq α] (p s : List α) :
    isPfxB p (p ++ s) = true := by
  induction p with
  | nil => rfl
  | cons a t ih => simp [isPfxB, ih]

/-- `strchr` finds nothing when the character is absent. -/
theorem subIdx_char_none {α : Type} [DecidableEq α] (c : α) (s : List α)
    (h : c ∉ s) : subIdx s [c] = none := by
  induction s with
  | nil => rfl
  | cons a t ih =>
    have hne : c ≠ a := fun hc => h (hc ▸ List.mem_cons_self a t)
    have ht : c ∉ t := fun hc => h (List.mem_cons_of_mem a hc)
    simp [subIdx, isPfxB, hne, ih ht]

/-- `strchr` finds the first occurrence: if `c` is absent from `s1`, its
    index in `s1 ++ c :: s2` is `s1.length`. -/
theorem subIdx_char_append {α : Type} [DecidableEq α] (c : α) (s1 s2 : List α)
    (h : c ∉ s1) : subIdx (s1 ++ c :: s2) [c] = some s1.length := by
  induction s1 with
  | nil => simp [subIdx, isPfxB]
  | cons a t ih =>
    have hne : c ≠ a := fun hc => h (hc ▸ List.mem_cons_self a t)
    have ht : c ∉ t := fun hc => h (List.mem_cons_of_mem a hc)
    simp [subIdx, isPfxB, hne, ih ht]

/-- `strstr` returns offset 0 when the pattern is an initial segment. -/
theorem subIdx_of_isPfxB {α : Type} [DecidableEq α] {l pat : List α}
    (h : isPfxB pat l = true) : subIdx l pat = some 0 := by
  cases l <;> simp [subIdx, h]

/-- `strstr` finds the first occurrence: if the pattern occurs at offset
    `s1.length` of `s1 ++ pat ++ s2` and at no earlier offset, that is the
    returned index. -/
theorem subIdx_first_occurrence {α : Type} [DecidableEq α] (pat s1 s2 : List α)
    (hfirst : ∀ i, i < s1.length → isPfxB pat ((s1 ++ pat ++ s2).drop i) = false) :
    subIdx (s1 ++ pat ++ s2) pat = some s1.length := by
  induction s1 with
  | nil => simp [subIdx_of_isPfxB (isPfxB_self_append pat s2)]
  | cons a t ih =>
    have h0 : isPfxB pat (a :: (t ++ (pat ++ s2))) = false := by
      have := hfirst 0 (Nat.succ_pos t.length)
      simpa using this
    have hrest : ∀ i, i < t.length → isPfxB pat ((t ++ pat ++ s2).drop i) = false := by
      intro i hi
      have := hfirst (i + 1) (Nat.succ_lt_succ hi)
      simpa using this
    have ih' : subIdx (t ++ (pat ++ s2)) pat = some t.length := by
      rw [← List.append_assoc]
      exact ih hrest
    simp [subIdx, h0, ih']

/-- Underscore branch of the extractor: with the prefix present and a first
    underscore right after `s1`, the department is `s1` (no truncation when
    it fits the buffer). -/
theorem extract_underscore_branch (s1 s2 : List Char) (sz : Nat)
    (h1 : ('_' : Char) ∉ s1) (hsz : s1.length < sz) :
    extract_department_from_filename (REPORT_PFX ++ (s1 ++ '_' :: s2)) sz = some s1 := by
  have hpfx := isPfxB_self_append REPORT_PFX (s1 ++ '_' :: s2)
  have hdrop : (REPORT_PFX ++ (s1 ++ '_' :: s2)).drop REPORT_PFX.length
      = s1 ++ '_' :: s2 := List.drop_left _ _
  have hchr := subIdx_char_append '_' s1 s2 h1
  have htrunc : (if sz ≤ s1.length then sz - 1 else s1.length) = s1.length :=
    if_neg (Nat.not_le.mpr hsz)
  have htake : (s1 ++ '_' :: s2).take s1.length = s1 := List.take_left _ _
  unfold extract_department_from_filename
  rw [if_pos hpfx]
  simp only [hdrop, hchr, htrunc, htake]

/-- Extension branch of the extractor: with the prefix present, no underscore
    anywhere after it, and the first `.xml` occurrence right after `s1`, the
    department is `s1`. -/
theorem extract_extension_branch (s1 s2 : List Char) (sz : Nat)
    (h1 : ('_' : Char) ∉ s1) (h2 : ('_' : Char) ∉ s2) (hsz : s1.length < sz)
    (hfirst : ∀ i, i < s1.length →
      isPfxB REPORT_EXT ((s1 ++ REPORT_EXT ++ s2).drop i) = false) :
    extract_department_from_filename (REPORT_PFX ++ (s1 ++ REPORT_EXT ++ s2)) sz
      = some s1 := by
  have hpfx := isPfxB_self_append REPORT_PFX (s1 ++ REPORT_EXT ++ s2)
  have hdrop : (REPORT_PFX ++ (s1 ++ REPORT_EXT ++ s2)).drop REPORT_PFX.length
      = s1 ++ REPORT_EXT ++ s2 := List.drop_left _ _
  have hnu : ('_' : Char) ∉ s1 ++ REPORT_EXT ++ s2 := by
    intro hm
    rcases List.mem_append.mp hm with hm | hm
    · rcases List.mem_append.mp hm with hm | hm
      · exact h1 hm
      · exact absurd hm (by decide)
    · exact h2 hm
  have hchr : subIdx (s1 ++ REPORT_EXT ++ s2) ['_'] = none := subIdx_char_none _ _ hnu
  have hsub : subIdx (s1 ++ REPORT_EXT ++ s2) REPORT_EXT = some s1.length :=
    subIdx_first_occurrence _ _ _ hfirst
  have htrunc : (if sz ≤ s1.length then sz - 1 else s1.length) = s1.length :=
    if_neg (Nat.not_le.mpr hsz)
  have htake : (s1 ++ REPORT_EXT ++ s2).take s1.length = s1 := by
    rw [List.append_assoc]
    exact List.take_left _ _
  unfold extract_department_from_filename
  rw [if_pos hpfx]
  simp only [hdrop, hchr, hsub, htrunc, htake]

/-- C8: `extract_department_from_filename` returns the substring between the
    fixed prefix `report_` and the first following underscore; when no
    underscore follows the prefix it returns the substring up to the first
    occurrence of `.xml`; it returns NULL when the name does not start with
    the prefix. In particular `report_Sales_2024-01-01.xml` yields `Sales`,
    `report_Sales.xml` yields `Sales`, and `invoice_2024.xml` yields no
    department. -/
theorem extract_department_claim (s1 s2 : List Char) (sz : Nat)
    (h1 : ('_' : Char) ∉ s1) (hsz : s1.length < sz) :
    (∀ f, isPfxB REPORT_PFX f = false → extract_department_from_filename f sz = none)
    ∧ extract_department_from_filename (REPORT_PFX ++ (s1 ++ '_' :: s2)) sz = some s1
    ∧ (('_' : Char) ∉ s2 →
        (∀ i, i < s1.length →
          isPfxB REPORT_EXT ((s1 ++ REPORT_EXT ++ s2).drop i) = false) →
        extract_department_from_filename (REPORT_PFX ++ (s1 ++ REPORT_EXT ++ s2)) sz
          = some s1)
    ∧ extract_department_from_filename "report_Sales_2024-01-01.xml".toList 256
        = some "Sales".toList
    ∧ extract_department_from_filename "report_Sales.xml".toList 256
        = some "Sales".toList
    ∧ extract_department_from_filename "invoice_2024.xml".toList 256 = none := by
  refine ⟨?_, extract_underscore_branch s1 s2 sz h1 hsz,
    fun h2 hfirst => extract_extension_branch s1 s2 sz h1 h2 hsz hfirst,
    by decide, by decide, by decide⟩
  intro f hf
  simp [extract_department_from_filename, hf]

/-- Witness for C8 at the documented example `report_Sales_2024-01-01.xml`. -/
theorem extract_department_claim_witness :
    (('_' : Char) ∉ "Sales".toList) ∧ "Sales".toList.length < 256
    ∧ extract_department_from_filename
        (REPORT_PFX ++ ("Sales".toList ++ '_' :: "2024-01-01.xml".toList)) 256
      = some "Sales".toList :=
  ⟨by decide, by decide,
    (extract_department_claim "Sales".toList "2024-01-01.xml".toList 256
      (by decide) (by decide)).2.1⟩

/-- A list is a prefix of itself. -/
theorem isPfxB_refl {α : Type} [DecidableEq α] (p : List α) : isPfxB p p = true := by
  induction p with
  | nil => rfl
  | cons a t ih => simp [isPfxB, ih]

/-- A prefix occurrence is a substring occurrence. -/
theorem hasSub_of_isPfxB {α : Type} [DecidableEq α] {l pat : List α}
    (h : isPfxB pat l = true) : hasSub l pat = true := by
  simp [hasSub, subIdx_of_isPfxB h]

/-- C1: whenever a pipeline run starts in a loop iteration (scheduled or
    forced transfer+backup, or forced backup-only), and whatever the guarded
    operations return, `unlock_directories` runs afterwards: every guarded
    operation in the trace is followed by an unlock, and both managed
    directories end the iteration at `UPLOAD_PERMISSIONS` (0777) and
    `DASHBOARD_PERMISSIONS` (0755). -/
theorem daemon_unlock_symmetry (st : LoopState) (hour minute : Nat) (now : Int)
    (tOk bOk bOk2 : Bool)
    (h : (hour = TRANSFER_HOUR ∧ minute = TRANSFER_MINUTE) ∨ st.force_transfer = true
        ∨ st.force_backup = true) :
    (daemon_iteration st hour minute now tOk bOk bOk2).1.perms
        = ⟨UPLOAD_PERMISSIONS, DASHBOARD_PERMISSIONS⟩
    ∧ unlockAfterGuarded (daemon_iteration st hour minute now tOk bOk bOk2).2 := by
  by_cases hp : (hour = TRANSFER_HOUR ∧ minute = TRANSFER_MINUTE) ∨ st.force_transfer = true
  · by_cases hb : st.force_backup = true
    · have htr : (daemon_iteration st hour minute now tOk bOk bOk2).2
          = [PipelineEvent.lockEv, PipelineEvent.transferEv tOk, PipelineEvent.missingEv,
              PipelineEvent.backupEv bOk, PipelineEvent.unlockEv, PipelineEvent.monitorEv,
              PipelineEvent.lockEv, PipelineEvent.backupEv bOk2, PipelineEvent.unlockEv] := by
        simp [daemon_iteration, hp, hb]
      refine ⟨by simp [daemon_iteration, hp, hb, unlock_directories, lock_directories], ?_⟩
      rw [htr]
      unfold unlockAfterGuarded
      cases tOk <;> cases bOk <;> cases bOk2 <;> decide
    · by_cases ht : 5 ≤ now - st.last_check
      · have htr : (daemon_iteration st hour minute now tOk bOk bOk2).2
            = [PipelineEvent.lockEv, PipelineEvent.transferEv tOk, PipelineEvent.missingEv,
                PipelineEvent.backupEv bOk, PipelineEvent.unlockEv,
                PipelineEvent.monitorEv] := by
          simp [daemon_iteration, hp, hb, ht]
        refine ⟨by simp [daemon_iteration, hp, hb, ht, unlock_directories, lock_directories],
          ?_⟩
        rw [htr]
        unfold unlockAfterGuarded
        cases tOk <;> cases bOk <;> decide
      · have htr : (daemon_iteration st hour minute now tOk bOk bOk2).2
            = [PipelineEvent.lockEv, PipelineEvent.transferEv tOk, PipelineEvent.missingEv,
                PipelineEvent.backupEv bOk, PipelineEvent.unlockEv] := by
          simp [daemon_iteration, hp, hb, ht]
        refine ⟨by simp [daemon_iteration, hp, hb, ht, unlock_directories, lock_directories],
          ?_⟩
        rw [htr]
        unfold unlockAfterGuarded
        cases tOk <;> cases bOk <;> decide
  · have hb : st.force_backup = true := by
      rcases h with h | h | h
      · exact absurd (Or.inl h) hp
      · exact absurd (Or.inr h) hp
      · exact h
    have htr : (daemon_iteration st hour minute now tOk bOk bOk2).2
        = [PipelineEvent.monitorEv, PipelineEvent.lockEv, PipelineEvent.backupEv bOk2,
            PipelineEvent.unlockEv] := by
      simp [daemon_iteration, hp, hb]
    refine ⟨by simp [daemon_iteration, hp, hb, unlock_directories, lock_directories], ?_⟩
    rw [htr]
    unfold unlockAfterGuarded
    cases bOk2 <;> decide

/-- Witness for C1: a forced transfer with both guarded operations failing
    still ends the iteration with both directories unlocked. -/
theorem daemon_unlock_symmetry_witness :
    ((5 = TRANSFER_HOUR ∧ 7 = TRANSFER_MINUTE)
      ∨ (⟨⟨0, 0⟩, true, false, 0⟩ : LoopState).force_transfer = true
      ∨ (⟨⟨0, 0⟩, true, false, 0⟩ : LoopState).force_backup = true)
    ∧ (daemon_iteration ⟨⟨0, 0⟩, true, false, 0⟩ 5 7 0 false false false).1.perms
        = ⟨UPLOAD_PERMISSIONS, DASHBOARD_PERMISSIONS⟩
    ∧ unlockAfterGuarded (daemon_iteration ⟨⟨0, 0⟩, true, false, 0⟩ 5 7 0 false false false).2 :=
  ⟨by decide,
    (daemon_unlock_symmetry ⟨⟨0, 0⟩, true, false, 0⟩ 5 7 0 false false false (by decide)).1,
    (daemon_unlock_symmetry ⟨⟨0, 0⟩, true, false, 0⟩ 5 7 0 false false false (by decide)).2⟩

/-- C9: in each loop iteration, the full lock-transfer-missing-backup-unlock
    sequence appears in the trace exactly when the wall clock reads
    `TRANSFER_HOUR:TRANSFER_MINUTE` or the force-transfer flag is set — never
    at other minutes without the flag — and after the iteration the
    force-transfer flag is always clear, so a forced trigger causes exactly
    one run. -/
theorem daemon_schedule_claim (st : LoopState) (hour minute : Nat) (now : Int)
    (tOk bOk bOk2 : Bool) :
    (hasSub (daemon_iteration st hour minute now tOk bOk bOk2).2
        [PipelineEvent.lockEv, PipelineEvent.transferEv tOk, PipelineEvent.missingEv,
          PipelineEvent.backupEv bOk, PipelineEvent.unlockEv] = true
      ↔ ((hour = TRANSFER_HOUR ∧ minute = TRANSFER_MINUTE) ∨ st.force_transfer = true))
    ∧ (daemon_iteration st hour minute now tOk bOk bOk2).1.force_transfer = false := by
  by_cases hp : (hour = TRANSFER_HOUR ∧ minute = TRANSFER_MINUTE) ∨ st.force_transfer = true
  · by_cases hb : st.force_backup = true
    · have htr : (daemon_iteration st hour minute now tOk bOk bOk2).2
          = [PipelineEvent.lockEv, PipelineEvent.transferEv tOk, PipelineEvent.missingEv,
              PipelineEvent.backupEv bOk, PipelineEvent.unlockEv]
            ++ [PipelineEvent.monitorEv, PipelineEvent.lockEv, PipelineEvent.backupEv bOk2,
              PipelineEvent.unlockEv] := by
        simp [daemon_iteration, hp, hb]
      refine ⟨htr ▸ iff_of_true (hasSub_of_isPfxB (isPfxB_self_append _ _)) hp, ?_⟩
      simp [daemon_iteration, hp, hb]
    · by_cases ht : 5 ≤ now - st.last_check
      · have htr : (daemon_iteration st hour minute now tOk bOk bOk2).2
            = [PipelineEvent.lockEv, PipelineEvent.transferEv tOk, PipelineEvent.missingEv,
                PipelineEvent.backupEv bOk, PipelineEvent.unlockEv]
              ++ [PipelineEvent.monitorEv] := by
          simp [daemon_iteration, hp, hb, ht]
        refine ⟨htr ▸ iff_of_true (hasSub_of_isPfxB (isPfxB_self_append _ _)) hp, ?_⟩
        simp [daemon_iteration, hp, hb, ht]
      · have htr : (daemon_iteration st hour minute now tOk bOk bOk2).2
            = [PipelineEvent.lockEv, PipelineEvent.transferEv tOk, PipelineEvent.missingEv,
                PipelineEvent.backupEv bOk, PipelineEvent.unlockEv] := by
          simp [daemon_iteration, hp, hb, ht]
        refine ⟨htr ▸ iff_of_true (hasSub_of_isPfxB (isPfxB_refl _)) hp, ?_⟩
        simp [daemon_iteration, hp, hb, ht]
  · have hft : st.force_transfer = false := by
      cases hf : st.force_transfer with
      | false => rfl
      | true => exact absurd (Or.inr hf) hp
    by_cases hb : st.force_backup = true
    · have htr : (daemon_iteration st hour minute now tOk bOk bOk2).2
          = [PipelineEvent.monitorEv, PipelineEvent.lockEv, PipelineEvent.backupEv bOk2,
              PipelineEvent.unlockEv] := by
        simp [daemon_iteration, hp, hb]
      refine ⟨?_, ?_⟩
      · rw [htr]
        exact iff_of_false (by cases tOk <;> cases bOk <;> cases bOk2 <;> decide) hp
      · simp [daemon_iteration, hp, hb]
        exact hft
    · by_cases ht : 5 ≤ now - st.last_check
      · have htr : (daemon_iteration st hour minute now tOk bOk bOk2).2
            = [PipelineEvent.monitorEv] := by
          simp [daemon_iteration, hp, hb, ht]
        refine ⟨?_, ?_⟩
        · rw [htr]
          exact iff_of_false (by cases tOk <;> cases bOk <;> decide) hp
        · simp [daemon_iteration, hp, hb, ht]
          exact hft
      · have htr : (daemon_iteration st hour minute now tOk bOk bOk2).2 = [] := by
          simp [daemon_iteration, hp, hb, ht]
        refine ⟨?_, ?_⟩
        · rw [htr]
          exact iff_of_false (by cases tOk <;> cases bOk <;> decide) hp
        · simp [daemon_iteration, hp, hb, ht]
          exact hft

/-- Whether the event decided for `x` (if any) has action `a`. -/
def optActionMatches (f : ReportFile → Option ChangeEvent) (x : ReportFile)
    (a : ChangeAction) : Bool :=
  match f x with
  | some e => e.action == a
  | none => false

/-- The first loop of `monitor_directory_changes` is the per-file decision
    mapped over the current inventory. -/
theorem currentLoop_eq (prev cur : List ReportFile) :
    currentLoop prev cur = cur.filterMap (cmEvent prev) := by
  induction cur with
  | nil => rfl
  | cons c rest ih =>
    cases hf : findByName c.filename prev with
    | none => simp [currentLoop, cmEvent, List.filterMap_cons, hf, ih]
    | some p =>
      by_cases ht : p.timestamp < c.timestamp <;>
        simp [currentLoop, cmEvent, List.filterMap_cons, hf, ht, ih]

/-- The second loop of `monitor_directory_changes` is the per-file decision
    mapped over the previous inventory. -/
theorem deletedLoop_eq (cur prev : List ReportFile) :
    deletedLoop cur prev = prev.filterMap (delEvent cur) := by
  induction prev with
  | nil => rfl
  | cons p rest ih =>
    cases hf : findByName p.filename cur with
    | none => simp [deletedLoop, delEvent, List.filterMap_cons, hf, ih]
    | some q => simp [deletedLoop, delEvent, List.filterMap_cons, hf, ih]

/-- The per-current-file decision keeps the file's name. -/
theorem cmEvent_filename (prev : List ReportFile) :
    ∀ x e, cmEvent prev x = some e → e.filename = x.filename := by
  intro x e h
  unfold cmEvent at h
  cases hf : findByName x.filename prev with
  | none => rw [hf] at h; cases h; rfl
  | some p =>
    rw [hf] at h
    dsimp only at h
    by_cases ht : p.timestamp < x.timestamp
    · rw [if_pos ht] at h; cases h; rfl
    · rw [if_neg ht] at h; cases h

/-- The per-previous-file decision keeps the file's name. -/
theorem delEvent_filename (cur : List ReportFile) :
    ∀ x e, delEvent cur x = some e → e.filename = x.filename := by
  intro x e h
  unfold delEvent at h
  cases hf : findByName x.filename cur with
  | some q => rw [hf] at h; cases h
  | none => rw [hf] at h; cases h; rfl

/-- Counting events with a given name and action after a name-preserving
    per-file decision reduces to filtering the inventory by that name. -/
theorem countEvents_filterMap (f : ReportFile → Option ChangeEvent)
    (hf : ∀ x e, f x = some e → e.filename = x.filename)
    (l : List ReportFile) (n : List Char) (a : ChangeAction) :
    countEvents (l.filterMap f) n a
      = ((l.filter fun x => x.filename == n).filter
          fun x => optActionMatches f x a).length := by
  induction l with
  | nil => rfl
  | cons x rest ih =>
    cases hx : f x with
    | none =>
      have hm : optActionMatches f x a = false := by simp [optActionMatches, hx]
      by_cases hn : x.filename = n <;>
        simp [List.filterMap_cons, hx, countEvents, List.filter_cons, hn, hm, ih,
          countEvents] at ih ⊢ <;> rw [ih]
    | some e =>
      have he : e.filename = x.filename := hf x e hx
      have hm : optActionMatches f x a = (e.action == a) := by simp [optActionMatches, hx]
      by_cases hn : x.filename = n
      · cases ha : e.action == a with
        | true =>
          simp [List.filterMap_cons, hx, countEvents, List.filter_cons, hn, he, hm, ha,
            countEvents] at ih ⊢
          rw [ih]
        | false =>
          simp [List.filterMap_cons, hx, countEvents, List.filter_cons, hn, he, hm, ha,
            countEvents] at ih ⊢
          rw [ih]
      · have hne : (e.filename == n) = false := by
          rw [he]; exact beq_eq_false_iff_ne.mpr hn
        simp [List.filterMap_cons, hx, countEvents, List.filter_cons, hn, hne, hm, ih,
          countEvents] at ih ⊢
        rw [ih]

/-- `findByName` returns NULL when the name is absent. -/
theorem findByName_of_not_mem (n : List Char) (l : List ReportFile)
    (h : n ∉ l.map fun x => x.filename) : findByName n l = none := by
  induction l with
  | nil => rfl
  | cons x t ih =>
    have hx : x.filename ≠ n := by
      intro he
      exact h (by simp [he])
    have ht : n ∉ t.map fun x => x.filename := by
      intro hm
      exact h (by simp [hm])
    simp [findByName, hx, ih ht]

/-- `findByName` finds something for the name of a member. -/
theorem findByName_isSome_of_mem (c : ReportFile) (l : List ReportFile)
    (hc : c ∈ l) : (findByName c.filename l).isSome = true := by
  induction l with
  | nil => cases hc
  | cons x t ih =>
    rcases List.mem_cons.mp hc with h | h
    · subst h; simp [findByName]
    · by_cases hx : x.filename = c.filename
      · simp [findByName, hx]
      · simp [findByName, hx, ih h]

/-- With unique filenames, `findByName` returns exactly the member with
    that name. -/
theorem findByName_of_nodup (l : List ReportFile) (p : ReportFile)
    (h : (l.map fun x => x.filename).Nodup) (hp : p ∈ l) :
    findByName p.filename l = some p := by
  induction l with
  | nil => cases hp
  | cons x t ih =>
    rw [List.map_cons, List.nodup_cons] at h
    rcases List.mem_cons.mp hp with h1 | h1
    · subst h1; simp [findByName]
    · have hx : x.filename ≠ p.filename := by
        intro he
        exact h.1 (he ▸ List.mem_map_of_mem (fun x => x.filename) h1)
      simp [findByName, hx, ih h.2 h1]

/-- Filtering by an absent name yields nothing. -/
theorem filter_name_nil (l : List ReportFile) (n : List Char)
    (h : n ∉ l.map fun x => x.filename) :
    l.filter (fun x => x.filename == n) = [] := by
  induction l with
  | nil => rfl
  | cons x t ih =>
    have hx : x.filename ≠ n := by
      intro he
      exact h (by simp [he])
    have ht : n ∉ t.map fun x => x.filename := by
      intro hm
      exact h (by simp [hm])
    simp [List.filter_cons, hx, ih ht]

/-- With unique filenames, filtering by a member's name yields exactly that
    member. -/
theorem filter_name_of_nodup (l : List ReportFile) (c : ReportFile)
    (h : (l.map fun x => x.filename).Nodup) (hc : c ∈ l) :
    l.filter (fun x => x.filename == c.filename) = [c] := by
  induction l with
  | nil => cases hc
  | cons x t ih =>
    rw [List.map_cons, List.nodup_cons] at h
    rcases List.mem_cons.mp hc with h1 | h1
    · subst h1
      have ht : t.filter (fun x => x.filename == c.filename) = [] :=
        filter_name_nil t c.filename h.1
      simp [List.filter_cons, ht]
    · have hx : x.filename ≠ c.filename := by
        intro he
        exact h.1 (he ▸ List.mem_map_of_mem (fun x => x.filename) h1)
      simp [List.filter_cons, hx, ih h.2 h1]

/-- A name-preserving per-file decision emits names in inventory order. -/
theorem filterMap_filename_sublist (f : ReportFile → Option ChangeEvent)
    (hf : ∀ x e, f x = some e → e.filename = x.filename) (l : List ReportFile) :
    ((l.filterMap f).map fun e => e.filename).Sublist (l.map fun x => x.filename) := by
  induction l with
  | nil => exact List.Sublist.refl _
  | cons x t ih =>
    cases hx : f x with
    | none =>
      rw [List.filterMap_cons_none hx, List.map_cons]
      exact List.Sublist.cons _ ih
    | some e =>
      rw [List.filterMap_cons_some hx, List.map_cons, List.map_cons, hf x e hx]
      exact List.Sublist.cons₂ _ ih

/-- Event counts add over concatenation. -/
theorem countEvents_append (l1 l2 : List ChangeEvent) (n : List Char)
    (a : ChangeAction) :
    countEvents (l1 ++ l2) n a = countEvents l1 n a + countEvents l2 n a := by
  simp [countEvents, List.filter_append]

/-- The singleton filter count. -/
theorem filter_singleton_length (q : ReportFile → Bool) (c : ReportFile) :
    (([c] : List ReportFile).filter q).length = if q c = true then 1 else 0 := by
  cases hq : q c <;> simp [List.filter, hq]

/-- Event counts of a non-priming run, reduced to the two inventories. -/
theorem countEvents_monitor (prev cur : List ReportFile) (n : List Char)
    (a : ChangeAction) :
    countEvents (monitorEvents prev cur) n a
      = ((cur.filter fun x => x.filename == n).filter
            fun x => optActionMatches (cmEvent prev) x a).length
        + ((prev.filter fun x => x.filename == n).filter
            fun x => optActionMatches (delEvent cur) x a).length := by
  rw [monitorEvents, countEvents_append, currentLoop_eq, deletedLoop_eq,
    countEvents_filterMap (cmEvent prev) (cmEvent_filename prev) cur n a,
    countEvents_filterMap (delEvent cur) (delEvent_filename cur) prev n a]

/-- C5: in a non-priming run with unique filenames per inventory, each
    current file absent from the previous inventory yields exactly one
    `create` event; each filename present in both with strictly newer
    timestamp yields exactly one `modify` event; matched-and-unchanged
    filenames yield no event; each previous file absent from the current
    inventory yields exactly one `delete` event; and the emitted list is the
    create/modify events in current-inventory order followed by the delete
    events in previous-inventory order. -/
theorem monitor_diff_claim (prev cur : List ReportFile)
    (hprev : (prev.map fun x => x.filename).Nodup)
    (hcur : (cur.map fun x => x.filename).Nodup) :
    (monitor_directory_changes (some prev) (ScanResult.ok cur)).2.2 = monitorEvents prev cur
    ∧ (∀ c ∈ cur, c.filename ∉ (prev.map fun x => x.filename) →
        countEvents (monitorEvents prev cur) c.filename ChangeAction.create = 1
        ∧ countEvents (monitorEvents prev cur) c.filename ChangeAction.modify = 0
        ∧ countEvents (monitorEvents prev cur) c.filename ChangeAction.delete = 0)
    ∧ (∀ c ∈ cur, ∀ p ∈ prev, p.filename = c.filename →
        (p.timestamp < c.timestamp →
          countEvents (monitorEvents prev cur) c.filename ChangeAction.modify = 1
          ∧ countEvents (monitorEvents prev cur) c.filename ChangeAction.create = 0
          ∧ countEvents (monitorEvents prev cur) c.filename ChangeAction.delete = 0)
        ∧ (¬ p.timestamp < c.timestamp →
            ∀ a, countEvents (monitorEvents prev cur) c.filename a = 0))
    ∧ (∀ p ∈ prev, p.filename ∉ (cur.map fun x => x.filename) →
        countEvents (monitorEvents prev cur) p.filename ChangeAction.delete = 1
        ∧ countEvents (monitorEvents prev cur) p.filename ChangeAction.create = 0
        ∧ countEvents (monitorEvents prev cur) p.filename ChangeAction.modify = 0)
    ∧ (((currentLoop prev cur).map fun e => e.filename).Sublist
        (cur.map fun x => x.filename))
    ∧ (∀ e ∈ currentLoop prev cur,
        e.action = ChangeAction.create ∨ e.action = ChangeAction.modify)
    ∧ (((deletedLoop cur prev).map fun e => e.filename).Sublist
        (prev.map fun x => x.filename))
    ∧ (∀ e ∈ deletedLoop cur prev, e.action = ChangeAction.delete) := by
  refine ⟨rfl, ?_, ?_, ?_, ?_, ?_, ?_, ?_⟩
  · intro c hc hnp
    have hcm : cmEvent prev c = some ⟨c.owner, c.filename, ChangeAction.create⟩ := by
      unfold cmEvent
      rw [findByName_of_not_mem c.filename prev hnp]
    have hf1 : cur.filter (fun x => x.filename == c.filename) = [c] :=
      filter_name_of_nodup cur c hcur hc
    have hf2 : prev.filter (fun x => x.filename == c.filename) = [] :=
      filter_name_nil prev c.filename hnp
    refine ⟨?_, ?_, ?_⟩ <;>
      rw [countEvents_monitor, hf1, hf2] <;>
      simp [filter_singleton_length, optActionMatches, hcm]
  · intro c hc p hp hpc
    have hfind : findByName c.filename prev = some p := by
      have h := findByName_of_nodup prev p hprev hp
      rw [hpc] at h
      exact h
    have hf1 : cur.filter (fun x => x.filename == c.filename) = [c] :=
      filter_name_of_nodup cur c hcur hc
    have hf2 : prev.filter (fun x => x.filename == c.filename) = [p] := by
      have h := filter_name_of_nodup prev p hprev hp
      rw [hpc] at h
      exact h
    have hdel : delEvent cur p = none := by
      unfold delEvent
      have hs := findByName_isSome_of_mem c cur hc
      rw [← hpc] at hs
      cases hfc : findByName p.filename cur with
      | none => rw [hfc] at hs; cases hs
      | some q => rfl
    constructor
    · intro ht
      have hcm : cmEvent prev c = some ⟨c.owner, c.filename, ChangeAction.modify⟩ := by
        unfold cmEvent
        rw [hfind]
        dsimp only
        rw [if_pos ht]
      refine ⟨?_, ?_, ?_⟩ <;>
        rw [countEvents_monitor, hf1, hf2] <;>
        simp [filter_singleton_length, optActionMatches, hcm, hdel]
    · intro ht a
      have hcm : cmEvent prev c = none := by
        unfold cmEvent
        rw [hfind]
        dsimp only
        rw [if_neg ht]
      rw [countEvents_monitor, hf1, hf2]
      simp [filter_singleton_length, optActionMatches, hcm, hdel]
  · intro p hp hnc
    have hdel : delEvent cur p = some ⟨p.owner, p.filename, ChangeAction.delete⟩ := by
      unfold delEvent
      rw [findByName_of_not_mem p.filename cur hnc]
    have hf1 : cur.filter (fun x => x.filename == p.filename) = [] :=
      filter_name_nil cur p.filename hnc
    have hf2 : prev.filter (fun x => x.filename == p.filename) = [p] :=
      filter_name_of_nodup prev p hprev hp
    refine ⟨?_, ?_, ?_⟩ <;>
      rw [countEvents_monitor, hf1, hf2] <;>
      simp [filter_singleton_length, optActionMatches, hdel]
  · rw [currentLoop_eq]
    exact filterMap_filename_sublist _ (cmEvent_filename prev) cur
  · intro e he
    rw [currentLoop_eq] at he
    rcases List.mem_filterMap.mp he with ⟨c, hc, hfc⟩
    unfold cmEvent at hfc
    cases hf : findByName c.filename prev with
    | none => rw [hf] at hfc; cases hfc; exact Or.inl rfl
    | some p =>
      rw [hf] at hfc
      dsimp only at hfc
      by_cases ht : p.timestamp < c.timestamp
      · rw [if_pos ht] at hfc; cases hfc; exact Or.inr rfl
      · rw [if_neg ht] at hfc; cases hfc
  · rw [deletedLoop_eq]
    exact filterMap_filename_sublist _ (delEvent_filename cur) prev
  · intro e he
    rw [deletedLoop_eq] at he
    rcases List.mem_filterMap.mp he with ⟨p, hp, hfp⟩
    unfold delEvent at hfp
    cases hf : findByName p.filename cur with
    | some q => rw [hf] at hfp; cases hfp
    | none => rw [hf] at hfp; cases hfp; rfl

/-- Witness for C5 on a concrete pair of inventories: `a.xml` modified,
    `b.xml` unchanged, `c.xml` deleted, `d.xml` created. -/
theorem monitor_diff_claim_witness :
    (([ReportFile.mk "a.xml".toList 1 "u".toList, ReportFile.mk "b.xml".toList 1 "u".toList,
        ReportFile.mk "c.xml".toList 1 "u".toList].map fun x => x.filename).Nodup)
    ∧ (([ReportFile.mk "a.xml".toList 2 "u".toList, ReportFile.mk "b.xml".toList 1 "u".toList,
        ReportFile.mk "d.xml".toList 5 "v".toList].map fun x => x.filename).Nodup)
    ∧ countEvents (monitorEvents
        [ReportFile.mk "a.xml".toList 1 "u".toList, ReportFile.mk "b.xml".toList 1 "u".toList,
          ReportFile.mk "c.xml".toList 1 "u".toList]
        [ReportFile.mk "a.xml".toList 2 "u".toList, ReportFile.mk "b.xml".toList 1 "u".toList,
          ReportFile.mk "d.xml".toList 5 "v".toList])
        "d.xml".toList ChangeAction.create = 1
    ∧ countEvents (monitorEvents
        [ReportFile.mk "a.xml".toList 1 "u".toList, ReportFile.mk "b.xml".toList 1 "u".toList,
          ReportFile.mk "c.xml".toList 1 "u".toList]
        [ReportFile.mk "a.xml".toList 2 "u".toList, ReportFile.mk "b.xml".toList 1 "u".toList,
          ReportFile.mk "d.xml".toList 5 "v".toList])
        "a.xml".toList ChangeAction.modify = 1
    ∧ countEvents (monitorEvents
        [ReportFile.mk "a.xml".toList 1 "u".toList, ReportFile.mk "b.xml".toList 1 "u".toList,
          ReportFile.mk "c.xml".toList 1 "u".toList]
        [ReportFile.mk "a.xml".toList 2 "u".toList, ReportFile.mk "b.xml".toList 1 "u".toList,
          ReportFile.mk "d.xml".toList 5 "v".toList])
        "c.xml".toList ChangeAction.delete = 1 :=
  ⟨by decide, by decide,
    ((monitor_diff_claim _ _ (by decide) (by decide)).2.1
      (ReportFile.mk "d.xml".toList 5 "v".toList) (by decide) (by decide)).1,
    (((monitor_diff_claim _ _ (by decide) (by decide)).2.2.1
      (ReportFile.mk "a.xml".toList 2 "u".toList) (by decide)
      (ReportFile.mk "a.xml".toList 1 "u".toList) (by decide) rfl).1 (by decide)).1,
    ((monitor_diff_claim _ _ (by decide) (by decide)).2.2.2.1
      (ReportFile.mk "c.xml".toList 1 "u".toList) (by decide) (by decide)).1⟩

/-- Witness for C2: one failed copy and one successful copy still give
    `SUCCESS` (usable partial backup). -/
theorem backup_dashboard_claim_witness :
    (backup_dashboard true true
        [DirEntry.mk "a.xml".toList false, DirEntry.mk "b.xml".toList false]
        (fun n => n == "b.xml".toList)).result = SUCCESS :=
  (backup_dashboard_claim true true
      [DirEntry.mk "a.xml".toList false, DirEntry.mk "b.xml".toList false]
      (fun n => n == "b.xml".toList)).1.mpr ⟨rfl, rfl, Or.inr (by decide)⟩

/-- Witness for C9: a forced transfer at 9:30 runs the full sequence and
    clears the flag. -/
theorem daemon_schedule_claim_witness :
    hasSub (daemon_iteration ⟨⟨0, 0⟩, true, false, 0⟩ 9 30 0 true true true).2
        [PipelineEvent.lockEv, PipelineEvent.transferEv true, PipelineEvent.missingEv,
          PipelineEvent.backupEv true, PipelineEvent.unlockEv] = true
    ∧ (daemon_iteration ⟨⟨0, 0⟩, true, false, 0⟩ 9 30 0 true true true).1.force_transfer
        = false :=
  ⟨(daemon_schedule_claim ⟨⟨0, 0⟩, true, false, 0⟩ 9 30 0 true true true).1.mpr
      (Or.inr rfl),
    (daemon_schedule_claim ⟨⟨0, 0⟩, true, false, 0⟩ 9 30 0 true true true).2⟩
